import Mathlib

/-!
Verification of the quote/invoice manager `devis.py`.

The development shallowly embeds the parts of the program the claims are
about:

* the data model (`StockItem`, `Material`, `SerialBinding`, `Item`, `Quote`,
  `Client`) mirroring the Python dataclasses and the JSON dictionaries used
  for serial bindings;
* the stock reconciliation performed by the tab-5 save-invoice handler
  (consumption pass and recredit pass, `devis.py` lines 712-738);
* the pricing computations of `build_pdf` and of the tab-1 totals block;
* the serial enumeration loop of tab 5 together with `generate_serial`;
* the CSV loaders (`load_catalog`, `load_clients`, `load_quotes`,
  `load_stock`).

Python integers are modelled as `Int`, Python floats used for money as `ℚ`
(the program only adds, multiplies and compares them), Python string
equality as `==` on `String`.  `next((x for x in xs if p x), default)` is
modelled as `List.find?`.  File access and external parsers (`csv`,
`json.loads`) are modelled by passing the decoded rows, respectively the
parser functions, as explicit arguments; a parser returning `none` stands
for `json.loads` raising.
-/

/-- Mirrors the Python dataclass `StockItem` (one stock ledger row).
Quantities are Python ints, hence `Int`. -/
structure StockItem where
  name : String
  color : String
  lot_number : String
  entry_date : String
  quantity : Int
deriving Repr, DecidableEq

/-- Mirrors one element of a serial binding's `materials` list, the JSON
dictionary with keys "name", "lot", "qty". -/
structure Material where
  name : String
  lot : String
  qty : Int
deriving Repr, DecidableEq

/-- Mirrors one element of an invoice's `serials` list, the JSON dictionary
with keys "serial", "product", "materials". -/
structure SerialBinding where
  serial : String
  product : String
  materials : List Material
deriving Repr, DecidableEq

/-- Mirrors the Python dataclass `Item` (one line item): description,
unit price (float, modelled as `ℚ`), quantity (int). -/
structure Item where
  description : String
  unit_price : ℚ
  quantity : Int
deriving Repr, DecidableEq

/-- Mirrors the Python dataclass `Client`. -/
structure Client where
  name : String
  address : String
  phone : String
  email : String
  city : String
deriving Repr, DecidableEq

/-- Mirrors `next((m for m in STOCK_DB if m.lot_number == lot), None)`:
the first ledger row carrying the given lot number. -/
def findLot (stock : List StockItem) (lot : String) : Option StockItem :=
  stock.find? (fun m => m.lot_number == lot)

/-- Mirrors the in-place mutation `stock_item.quantity += delta` of the row
returned by the lookup above: only the first row carrying the lot number is
changed; when there is no such row the ledger is unchanged. -/
def adjustLot (stock : List StockItem) (lot : String) (delta : Int) : List StockItem :=
  match stock with
  | [] => []
  | m :: rest =>
    if m.lot_number == lot then { m with quantity := m.quantity + delta } :: rest
    else m :: adjustLot rest lot delta

/-- Mirrors `next((m2["qty"] for m2 in materials if m2["lot"] == lot), 0)`. -/
def oldQtyFor (materials : List Material) (lot : String) : Int :=
  match materials.find? (fun m2 => m2.lot == lot) with
  | some m2 => m2.qty
  | none => 0

/-- The previously recorded quantity used of `lot` by an optional old
binding: `0` when the serial had no old entry (`devis.py` lines 717-719). -/
def useQty (old_entry : Option SerialBinding) (lot : String) : Int :=
  match old_entry with
  | some oe => oldQtyFor oe.materials lot
  | none => 0

/-- Consumption pass, inner loop for one new binding (`devis.py` lines
712-721): for every `{lot, qty}` pair of the new binding, if the lot exists
in the ledger, subtract `qty - old_qty` from it. -/
def consumeSerial (old_serials : List SerialBinding) (stock : List StockItem)
    (ns : SerialBinding) : List StockItem :=
  let old_entry := old_serials.find? (fun s => s.serial == ns.serial)
  ns.materials.foldl
    (fun st mat =>
      match findLot st mat.lot with
      | some _ => adjustLot st mat.lot (-(mat.qty - useQty old_entry mat.lot))
      | none => st)
    stock

/-- Consumption pass over all new bindings (`devis.py` lines 712-721). -/
def consumptionPass (old_serials new_serials : List SerialBinding)
    (stock : List StockItem) : List StockItem :=
  new_serials.foldl (consumeSerial old_serials) stock

/-- Recredit pass, one old binding (`devis.py` lines 724-738): if the
serial still exists in the new state, recredit every old `{lot, qty}` pair
whose lot the new binding no longer uses; if the serial disappeared,
recredit every old pair.  Unknown lots are skipped by the ledger lookup. -/
def recreditOld (new_serials : List SerialBinding) (stock : List StockItem)
    (old : SerialBinding) : List StockItem :=
  match new_serials.find? (fun ns => ns.serial == old.serial) with
  | some still_present =>
    old.materials.foldl
      (fun st om =>
        if !(still_present.materials.any (fun m => m.lot == om.lot)) then
          match findLot st om.lot with
          | some _ => adjustLot st om.lot om.qty
          | none => st
        else st)
      stock
  | none =>
    old.materials.foldl
      (fun st om =>
        match findLot st om.lot with
        | some _ => adjustLot st om.lot om.qty
        | none => st)
      stock

/-- Recredit pass over all old bindings (`devis.py` lines 723-738). -/
def recreditPass (old_serials new_serials : List SerialBinding)
    (stock : List StockItem) : List StockItem :=
  old_serials.foldl (recreditOld new_serials) stock

/-- The whole stock reconciliation of the save-invoice handler: consumption
pass followed by recredit pass (`devis.py` lines 712-738). -/
def reconcile (old_serials new_serials : List SerialBinding)
    (stock : List StockItem) : List StockItem :=
  recreditPass old_serials new_serials (consumptionPass old_serials new_serials stock)

/-- Helper used only in the statements and proofs: shift a ledger row's
quantity by a delta. -/
def addQ (d : Int) (m : StockItem) : StockItem :=
  { m with quantity := m.quantity + d }

/-- Sum of the quantities a materials list records for a given lot. -/
def matQty (materials : List Material) (l : String) : Int :=
  (materials.map (fun m => if m.lot == l then m.qty else 0)).sum

/-- Sum of the quantities a binding list records for a given lot
("the sum of that lot's quantities over the bindings"). -/
def sumQty (bindings : List SerialBinding) (l : String) : Int :=
  (bindings.map (fun b => matQty b.materials l)).sum

/-! ## Characterizing the passes through `findLot` -/

theorem addQ_zero (m : StockItem) : addQ 0 m = m := by
  simp [addQ]

theorem map_addQ_zero (o : Option StockItem) : o.map (addQ 0) = o := by
  cases o <;> simp [addQ_zero]

theorem map_addQ_addQ (o : Option StockItem) (a b : Int) :
    (o.map (addQ a)).map (addQ b) = o.map (addQ (a + b)) := by
  cases o <;> simp [addQ, add_assoc]

theorem findLot_adjustLot (s : List StockItem) (l l' : String) (d : Int) :
    findLot (adjustLot s l d) l' =
      if l' = l then (findLot s l').map (addQ d) else findLot s l' := by
  induction s with
  | nil => by_cases h : l' = l <;> simp [findLot, adjustLot, h]
  | cons m rest ih =>
    by_cases hml : m.lot_number = l
    · have hbl : (m.lot_number == l) = true := beq_iff_eq.mpr hml
      by_cases hl : l' = l
      · subst hl
        have hb : (m.lot_number == l') = true := beq_iff_eq.mpr hml
        simp [findLot, adjustLot, hbl, hb, addQ]
      · have hml' : (m.lot_number == l') = false :=
          beq_eq_false_iff_ne.mpr (fun h => hl (h.symm.trans hml))
        simp only [adjustLot, hbl, if_true, if_neg hl]
        simp [findLot, hml']
    · have hbl : (m.lot_number == l) = false := beq_eq_false_iff_ne.mpr hml
      by_cases hhead : m.lot_number = l'
      · have hl : l' ≠ l := fun h => hml (hhead.trans h)
        have hb : (m.lot_number == l') = true := beq_iff_eq.mpr hhead
        simp [findLot, adjustLot, hbl, hb, hl]
      · have hb : (m.lot_number == l') = false := beq_eq_false_iff_ne.mpr hhead
        simp only [adjustLot, hbl, Bool.false_eq_true, if_false]
        simp only [findLot] at ih ⊢
        simp [hb, ih]

/-- Generic shape of both passes' inner loops: for each element `x`, when a
pure condition `c x` holds and the lot `lt x` exists in the ledger, shift
that lot by `d x`. -/
def stepAdjust (lt : α → String) (d : α → Int) (c : α → Bool)
    (st : List StockItem) (x : α) : List StockItem :=
  if c x then
    match findLot st (lt x) with
    | some _ => adjustLot st (lt x) (d x)
    | none => st
  else st

/-- The pure per-lot delta the generic loop applies (ignoring the ledger
lookup guard, which only matters for absent lots). -/
def stepDelta (lt : α → String) (d : α → Int) (c : α → Bool)
    (l : String) (xs : List α) : Int :=
  (xs.map (fun x => if c x && (lt x == l) then d x else 0)).sum

theorem stepDelta_nil (lt : α → String) (d : α → Int) (c : α → Bool) (l : String) :
    stepDelta lt d c l [] = 0 := rfl

theorem stepDelta_cons (lt : α → String) (d : α → Int) (c : α → Bool) (l : String)
    (x : α) (xs : List α) :
    stepDelta lt d c l (x :: xs) =
      (if c x && (lt x == l) then d x else 0) + stepDelta lt d c l xs := by
  simp [stepDelta]

theorem findLot_foldl_stepAdjust (lt : α → String) (d : α → Int) (c : α → Bool)
    (xs : List α) : ∀ (st : List StockItem) (l : String),
    findLot (xs.foldl (stepAdjust lt d c) st) l
      = (findLot st l).map (addQ (stepDelta lt d c l xs)) := by
  induction xs with
  | nil => intro st l; simp [stepDelta_nil, map_addQ_zero]
  | cons x xs ih =>
    intro st l
    simp only [List.foldl_cons]
    rw [ih, stepDelta_cons]
    by_cases hc : c x
    · cases hfound : findLot st (lt x) with
      | some m =>
        simp only [stepAdjust, hc, if_true, hfound]
        rw [findLot_adjustLot]
        by_cases hl : l = lt x
        · subst hl
          rw [if_pos rfl, map_addQ_addQ]
          have hb : (lt x == lt x) = true := beq_self_eq_true _
          simp [hc, hb, add_comm]
        · have hb : (lt x == l) = false :=
            beq_eq_false_iff_ne.mpr (fun h => hl h.symm)
          rw [if_neg hl]
          simp [hb]
      | none =>
        simp only [stepAdjust, hc, if_true, hfound]
        by_cases hl : lt x = l
        · subst hl
          simp [hfound]
        · have hb : (lt x == l) = false := beq_eq_false_iff_ne.mpr hl
          simp [hb]
    · simp [stepAdjust, hc]

/-- Pure per-lot delta applied by the consumption step for one new binding. -/
def consDelta (old_serials : List SerialBinding) (ns : SerialBinding) (l : String) : Int :=
  stepDelta Material.lot
    (fun mat => -(mat.qty - useQty (old_serials.find? (fun s => s.serial == ns.serial)) mat.lot))
    (fun _ => true) l ns.materials

/-- Pure per-lot delta applied by the recredit step for one old binding. -/
def recDelta (new_serials : List SerialBinding) (old : SerialBinding) (l : String) : Int :=
  match new_serials.find? (fun ns => ns.serial == old.serial) with
  | some still_present =>
    stepDelta Material.lot Material.qty
      (fun om => !(still_present.materials.any (fun m => m.lot == om.lot))) l old.materials
  | none =>
    stepDelta Material.lot Material.qty (fun _ => true) l old.materials

/-- Total per-lot delta of the consumption pass. -/
def consSum (old_serials new_serials : List SerialBinding) (l : String) : Int :=
  (new_serials.map (fun ns => consDelta old_serials ns l)).sum

/-- Total per-lot delta of the recredit pass. -/
def recSum (old_serials new_serials : List SerialBinding) (l : String) : Int :=
  (old_serials.map (fun oe => recDelta new_serials oe l)).sum

theorem consumeSerial_eq_foldl (old_serials : List SerialBinding) (st : List StockItem)
    (ns : SerialBinding) :
    consumeSerial old_serials st ns
      = ns.materials.foldl
          (stepAdjust Material.lot
            (fun mat =>
              -(mat.qty - useQty (old_serials.find? (fun s => s.serial == ns.serial)) mat.lot))
            (fun _ => true)) st := rfl

theorem recreditOld_eq_foldl_some (new_serials : List SerialBinding) (st : List StockItem)
    (oe sp : SerialBinding)
    (hfind : new_serials.find? (fun ns => ns.serial == oe.serial) = some sp) :
    recreditOld new_serials st oe
      = oe.materials.foldl
          (stepAdjust Material.lot Material.qty
            (fun om => !(sp.materials.any (fun m => m.lot == om.lot)))) st := by
  unfold recreditOld
  rw [hfind]
  rfl

theorem recreditOld_eq_foldl_none (new_serials : List SerialBinding) (st : List StockItem)
    (oe : SerialBinding)
    (hfind : new_serials.find? (fun ns => ns.serial == oe.serial) = none) :
    recreditOld new_serials st oe
      = oe.materials.foldl
          (stepAdjust Material.lot Material.qty (fun _ => true)) st := by
  unfold recreditOld
  rw [hfind]
  rfl

theorem recDelta_some (new_serials : List SerialBinding) (oe sp : SerialBinding) (l : String)
    (hfind : new_serials.find? (fun ns => ns.serial == oe.serial) = some sp) :
    recDelta new_serials oe l
      = stepDelta Material.lot Material.qty
          (fun om => !(sp.materials.any (fun m => m.lot == om.lot))) l oe.materials := by
  unfold recDelta
  rw [hfind]

theorem recDelta_none (new_serials : List SerialBinding) (oe : SerialBinding) (l : String)
    (hfind : new_serials.find? (fun ns => ns.serial == oe.serial) = none) :
    recDelta new_serials oe l
      = stepDelta Material.lot Material.qty (fun _ => true) l oe.materials := by
  unfold recDelta
  rw [hfind]

theorem findLot_consumeSerial (old_serials : List SerialBinding) (st : List StockItem)
    (ns : SerialBinding) (l : String) :
    findLot (consumeSerial old_serials st ns) l
      = (findLot st l).map (addQ (consDelta old_serials ns l)) := by
  rw [consumeSerial_eq_foldl]
  exact findLot_foldl_stepAdjust _ _ _ _ st l

theorem findLot_recreditOld (new_serials : List SerialBinding) (st : List StockItem)
    (oe : SerialBinding) (l : String) :
    findLot (recreditOld new_serials st oe) l
      = (findLot st l).map (addQ (recDelta new_serials oe l)) := by
  cases hfind : new_serials.find? (fun ns => ns.serial == oe.serial) with
  | some sp =>
    rw [recreditOld_eq_foldl_some new_serials st oe sp hfind, recDelta_some new_serials oe sp l hfind]
    exact findLot_foldl_stepAdjust _ _ _ _ st l
  | none =>
    rw [recreditOld_eq_foldl_none new_serials st oe hfind, recDelta_none new_serials oe l hfind]
    exact findLot_foldl_stepAdjust _ _ _ _ st l

theorem findLot_consumptionPass (old_serials new_serials : List SerialBinding) :
    ∀ (st : List StockItem) (l : String),
    findLot (consumptionPass old_serials new_serials st) l
      = (findLot st l).map (addQ (consSum old_serials new_serials l)) := by
  induction new_serials with
  | nil => intro st l; simp [consumptionPass, consSum, map_addQ_zero]
  | cons ns rest ih =>
    intro st l
    have h1 : consumptionPass old_serials (ns :: rest) st
        = consumptionPass old_serials rest (consumeSerial old_serials st ns) := rfl
    rw [h1, ih, findLot_consumeSerial, map_addQ_addQ]
    simp [consSum]

theorem findLot_recreditPass (new_serials : List SerialBinding)
    (old_serials : List SerialBinding) :
    ∀ (st : List StockItem) (l : String),
    findLot (recreditPass old_serials new_serials st) l
      = (findLot st l).map (addQ (recSum old_serials new_serials l)) := by
  induction old_serials with
  | nil => intro st l; simp [recreditPass, recSum, map_addQ_zero]
  | cons oe rest ih =>
    intro st l
    have h1 : recreditPass (oe :: rest) new_serials st
        = recreditPass rest new_serials (recreditOld new_serials st oe) := rfl
    rw [h1, ih, findLot_recreditOld, map_addQ_addQ]
    simp [recSum]

/-- The whole reconciliation shifts each lot's first ledger row by the pure
delta of the two passes and changes nothing else about that row. -/
theorem findLot_reconcile (old_serials new_serials : List SerialBinding)
    (st : List StockItem) (l : String) :
    findLot (reconcile old_serials new_serials st) l
      = (findLot st l).map
          (addQ (consSum old_serials new_serials l + recSum old_serials new_serials l)) := by
  unfold reconcile
  rw [findLot_recreditPass, findLot_consumptionPass, map_addQ_addQ]

/-! ## The ledger's shape is preserved -/

theorem adjustLot_map_lot (s : List StockItem) (l : String) (d : Int) :
    (adjustLot s l d).map (fun m => m.lot_number) = s.map (fun m => m.lot_number) := by
  induction s with
  | nil => rfl
  | cons m rest ih =>
    by_cases h : m.lot_number = l
    · simp [adjustLot, beq_iff_eq.mpr h]
    · simp [adjustLot, beq_eq_false_iff_ne.mpr h, ih]

theorem stepAdjust_map_lot (lt : α → String) (d : α → Int) (c : α → Bool)
    (st : List StockItem) (x : α) :
    (stepAdjust lt d c st x).map (fun m => m.lot_number) = st.map (fun m => m.lot_number) := by
  unfold stepAdjust
  by_cases hc : c x
  · cases hfound : findLot st (lt x) with
    | some m => simp [hc, hfound, adjustLot_map_lot]
    | none => simp [hc, hfound]
  · simp [hc]

theorem foldl_stepAdjust_map_lot (lt : α → String) (d : α → Int) (c : α → Bool)
    (xs : List α) : ∀ (st : List StockItem),
    ((xs.foldl (stepAdjust lt d c) st).map (fun m => m.lot_number))
      = st.map (fun m => m.lot_number) := by
  induction xs with
  | nil => intro st; rfl
  | cons x xs ih =>
    intro st
    simp only [List.foldl_cons]
    rw [ih, stepAdjust_map_lot]

theorem consumeSerial_map_lot (old_serials : List SerialBinding) (st : List StockItem)
    (ns : SerialBinding) :
    (consumeSerial old_serials st ns).map (fun m => m.lot_number)
      = st.map (fun m => m.lot_number) := by
  rw [consumeSerial_eq_foldl]
  exact foldl_stepAdjust_map_lot _ _ _ _ st

theorem recreditOld_map_lot (new_serials : List SerialBinding) (st : List StockItem)
    (oe : SerialBinding) :
    (recreditOld new_serials st oe).map (fun m => m.lot_number)
      = st.map (fun m => m.lot_number) := by
  cases hfind : new_serials.find? (fun ns => ns.serial == oe.serial) with
  | some sp =>
    rw [recreditOld_eq_foldl_some new_serials st oe sp hfind]
    exact foldl_stepAdjust_map_lot _ _ _ _ st
  | none =>
    rw [recreditOld_eq_foldl_none new_serials st oe hfind]
    exact foldl_stepAdjust_map_lot _ _ _ _ st

theorem reconcile_map_lot (old_serials new_serials : List SerialBinding)
    (st : List StockItem) :
    (reconcile old_serials new_serials st).map (fun m => m.lot_number)
      = st.map (fun m => m.lot_number) := by
  unfold reconcile recreditPass consumptionPass
  have h1 : ∀ (bs : List SerialBinding) (s : List StockItem),
      ((bs.foldl (consumeSerial old_serials) s).map (fun m => m.lot_number))
        = s.map (fun m => m.lot_number) := by
    intro bs
    induction bs with
    | nil => intro s; rfl
    | cons b bs ih =>
      intro s
      simp only [List.foldl_cons]
      rw [ih, consumeSerial_map_lot]
  have h2 : ∀ (bs : List SerialBinding) (s : List StockItem),
      ((bs.foldl (recreditOld new_serials) s).map (fun m => m.lot_number))
        = s.map (fun m => m.lot_number) := by
    intro bs
    induction bs with
    | nil => intro s; rfl
    | cons b bs ih =>
      intro s
      simp only [List.foldl_cons]
      rw [ih, recreditOld_map_lot]
  rw [h2, h1]

/-! ## The pure per-lot delta equals old-sum minus new-sum -/

theorem sum_map_add (f g : α → Int) (xs : List α) :
    (xs.map (fun x => f x + g x)).sum = (xs.map f).sum + (xs.map g).sum := by
  induction xs with
  | nil => simp
  | cons x xs ih => simp [ih]; ring

theorem matQty_nil (l : String) : matQty [] l = 0 := rfl

theorem matQty_cons (m : Material) (rest : List Material) (l : String) :
    matQty (m :: rest) l = (if m.lot == l then m.qty else 0) + matQty rest l := by
  simp [matQty]

theorem matQty_eq_zero_of_not_mem (mats : List Material) (l : String)
    (h : l ∉ mats.map Material.lot) : matQty mats l = 0 := by
  induction mats with
  | nil => rfl
  | cons m rest ih =>
    simp only [List.map_cons, List.mem_cons, not_or] at h
    have hb : (m.lot == l) = false := beq_eq_false_iff_ne.mpr (fun he => h.1 he.symm)
    rw [matQty_cons, hb, ih h.2]
    simp

theorem oldQtyFor_eq_matQty (mats : List Material) (l : String)
    (h : (mats.map Material.lot).Nodup) : oldQtyFor mats l = matQty mats l := by
  induction mats with
  | nil => rfl
  | cons m rest ih =>
    simp only [List.map_cons, List.nodup_cons] at h
    cases hb : (m.lot == l) with
    | true =>
      have hml : m.lot = l := beq_iff_eq.mp hb
      have hrest : matQty rest l = 0 :=
        matQty_eq_zero_of_not_mem rest l (by
          intro hmem
          exact h.1 (hml ▸ hmem))
      rw [matQty_cons, hb, hrest]
      simp [oldQtyFor, List.find?, hb]
    | false =>
      rw [matQty_cons, hb]
      simp only [oldQtyFor, List.find?, hb] at ih ⊢
      rw [ih h.2]
      simp

theorem stepDelta_eq_zero_of_not_mem (d : Material → Int) (c : Material → Bool)
    (mats : List Material) (l : String) (h : l ∉ mats.map Material.lot) :
    stepDelta Material.lot d c l mats = 0 := by
  induction mats with
  | nil => rfl
  | cons m rest ih =>
    simp only [List.map_cons, List.mem_cons, not_or] at h
    have hb : (m.lot == l) = false := beq_eq_false_iff_ne.mpr (fun he => h.1 he.symm)
    rw [stepDelta_cons, hb, ih h.2]
    simp

theorem stepDelta_true_qty (mats : List Material) (l : String) :
    stepDelta Material.lot Material.qty (fun _ => true) l mats = matQty mats l := by
  induction mats with
  | nil => rfl
  | cons m rest ih =>
    rw [stepDelta_cons, matQty_cons, ih]
    simp

/-- The "kept the lot" correction term one new binding receives from the
old state during the consumption pass. -/
def hitTerm (old_serials : List SerialBinding) (ns : SerialBinding) (l : String) : Int :=
  if ns.materials.any (fun m => m.lot == l) then
    useQty (old_serials.find? (fun s => s.serial == ns.serial)) l
  else 0

theorem consDeltaM_decomp (oe : Option SerialBinding) (mats : List Material) (l : String)
    (h : (mats.map Material.lot).Nodup) :
    stepDelta Material.lot (fun mat => -(mat.qty - useQty oe mat.lot)) (fun _ => true) l mats
      = -(matQty mats l) + (if mats.any (fun m => m.lot == l) then useQty oe l else 0) := by
  induction mats with
  | nil => simp [stepDelta_nil, matQty_nil]
  | cons m rest ih =>
    simp only [List.map_cons, List.nodup_cons] at h
    cases hb : (m.lot == l) with
    | true =>
      have hml : m.lot = l := beq_iff_eq.mp hb
      have hnot : l ∉ rest.map Material.lot := by
        intro hmem
        exact h.1 (hml ▸ hmem)
      rw [stepDelta_cons, matQty_cons, hb,
        stepDelta_eq_zero_of_not_mem _ _ rest l hnot,
        matQty_eq_zero_of_not_mem rest l hnot]
      have hany : (m :: rest).any (fun m => m.lot == l) = true := by
        simp [List.any_cons, hb]
      rw [hany]
      simp [hml]
      ring
    | false =>
      rw [stepDelta_cons, matQty_cons, hb, ih h.2]
      have hany : ((m :: rest).any (fun m => m.lot == l))
          = (rest.any (fun m => m.lot == l)) := by
        simp [List.any_cons, hb]
      rw [hany]
      simp

theorem consDelta_decomp (old_serials : List SerialBinding) (ns : SerialBinding) (l : String)
    (h : (ns.materials.map Material.lot).Nodup) :
    consDelta old_serials ns l = -(matQty ns.materials l) + hitTerm old_serials ns l := by
  unfold consDelta hitTerm
  exact consDeltaM_decomp _ ns.materials l h

theorem sum_ite_serial (s : String) (g : SerialBinding → Int) :
    ∀ (new_serials : List SerialBinding),
    ((new_serials.map (fun b => b.serial)).Nodup) →
    (new_serials.map (fun ns => if ns.serial == s then g ns else 0)).sum
      = (match new_serials.find? (fun ns => ns.serial == s) with
         | some sp => g sp
         | none => 0) := by
  intro new_serials
  induction new_serials with
  | nil => intro _; rfl
  | cons b rest ih =>
    intro hnodup
    simp only [List.map_cons, List.nodup_cons] at hnodup
    cases hb : (b.serial == s) with
    | true =>
      have hbs : b.serial = s := beq_iff_eq.mp hb
      have hzero : (rest.map (fun ns => if ns.serial == s then g ns else 0)).sum = 0 := by
        apply List.sum_eq_zero
        intro x hx
        simp only [List.mem_map] at hx
        obtain ⟨ns, hns, rfl⟩ := hx
        have hne : (ns.serial == s) = false := by
          apply beq_eq_false_iff_ne.mpr
          intro he
          apply hnodup.1
          rw [hbs, ← he]
          exact List.mem_map_of_mem _ hns
        simp [hne]
      rw [List.map_cons, List.sum_cons, hzero, add_zero]
      simp [hb]
    | false =>
      simp only [List.map_cons, List.sum_cons, hb]
      rw [ih hnodup.2]
      simp [hb]

theorem hitTerm_nil (ns : SerialBinding) (l : String) : hitTerm [] ns l = 0 := by
  simp [hitTerm, useQty]

theorem hitTerm_cons (oe : SerialBinding) (rest : List SerialBinding)
    (ns : SerialBinding) (l : String)
    (hnotin : ∀ b ∈ rest, b.serial ≠ oe.serial) :
    hitTerm (oe :: rest) ns l
      = hitTerm rest ns l
        + (if ns.serial == oe.serial then
             (if ns.materials.any (fun m => m.lot == l) then oldQtyFor oe.materials l else 0)
           else 0) := by
  unfold hitTerm
  cases hb : (ns.serial == oe.serial) with
  | true =>
    have hbs : ns.serial = oe.serial := beq_iff_eq.mp hb
    have hhead : (oe.serial == ns.serial) = true := beq_iff_eq.mpr hbs.symm
    have hrest : rest.find? (fun s => s.serial == ns.serial) = none := by
      apply List.find?_eq_none.mpr
      intro b hbmem
      simp only [beq_iff_eq]
      intro he
      exact hnotin b hbmem (he.trans hbs)
    simp [hhead, hrest, useQty]
  | false =>
    have hhead : (oe.serial == ns.serial) = false :=
      beq_eq_false_iff_ne.mpr (Ne.symm (beq_eq_false_iff_ne.mp hb))
    simp [hhead, hb]

theorem hitSum_cons (new_serials : List SerialBinding) (oe : SerialBinding)
    (rest : List SerialBinding) (l : String)
    (hnotin : ∀ b ∈ rest, b.serial ≠ oe.serial)
    (hnew : (new_serials.map (fun b => b.serial)).Nodup) :
    (new_serials.map (fun ns => hitTerm (oe :: rest) ns l)).sum
      = (new_serials.map (fun ns => hitTerm rest ns l)).sum
        + (match new_serials.find? (fun ns => ns.serial == oe.serial) with
           | some sp =>
             if sp.materials.any (fun m => m.lot == l) then oldQtyFor oe.materials l else 0
           | none => 0) := by
  have hpoint : (new_serials.map (fun ns => hitTerm (oe :: rest) ns l))
      = new_serials.map (fun ns =>
          hitTerm rest ns l
            + (if ns.serial == oe.serial then
                 (if ns.materials.any (fun m => m.lot == l) then oldQtyFor oe.materials l else 0)
               else 0)) := by
    apply List.map_congr_left
    intro ns _
    exact hitTerm_cons oe rest ns l hnotin
  rw [hpoint, sum_map_add, sum_ite_serial oe.serial _ new_serials hnew]

theorem recDelta_eq (new_serials : List SerialBinding) (oe : SerialBinding) (l : String) :
    recDelta new_serials oe l
      = (match new_serials.find? (fun ns => ns.serial == oe.serial) with
         | some sp =>
           if sp.materials.any (fun m => m.lot == l) then 0 else matQty oe.materials l
         | none => matQty oe.materials l) := by
  cases hfind : new_serials.find? (fun ns => ns.serial == oe.serial) with
  | none => rw [recDelta_none _ _ _ hfind, stepDelta_true_qty]
  | some sp =>
    rw [recDelta_some _ _ _ _ hfind]
    show stepDelta Material.lot Material.qty
        (fun om => !(sp.materials.any (fun m => m.lot == om.lot))) l oe.materials
      = if sp.materials.any (fun m => m.lot == l) then 0 else matQty oe.materials l
    cases hsp : sp.materials.any (fun m => m.lot == l) with
    | true =>
      rw [if_pos rfl]
      unfold stepDelta
      apply List.sum_eq_zero
      intro x hx
      simp only [List.mem_map] at hx
      obtain ⟨om, hom, rfl⟩ := hx
      cases hol : (om.lot == l) with
      | true =>
        have homl : om.lot = l := beq_iff_eq.mp hol
        have hany : (sp.materials.any (fun m => m.lot == om.lot)) = true := by
          rw [homl]; exact hsp
        simp [hany]
      | false => simp [hol]
    | false =>
      rw [if_neg Bool.false_ne_true]
      unfold stepDelta matQty
      congr 1
      apply List.map_congr_left
      intro om _
      cases hol : (om.lot == l) with
      | true =>
        have homl : om.lot = l := beq_iff_eq.mp hol
        have hany : (sp.materials.any (fun m => m.lot == om.lot)) = false := by
          rw [homl]; exact hsp
        simp [hany, hol]
      | false => simp [hol]

theorem extra_plus_rec (new_serials : List SerialBinding) (oe : SerialBinding) (l : String)
    (hoe : oldQtyFor oe.materials l = matQty oe.materials l) :
    (match new_serials.find? (fun ns => ns.serial == oe.serial) with
     | some sp =>
       if sp.materials.any (fun m => m.lot == l) then oldQtyFor oe.materials l else 0
     | none => 0)
      + (match new_serials.find? (fun ns => ns.serial == oe.serial) with
         | some sp =>
           if sp.materials.any (fun m => m.lot == l) then 0 else matQty oe.materials l
         | none => matQty oe.materials l)
      = matQty oe.materials l := by
  cases hfind : new_serials.find? (fun ns => ns.serial == oe.serial) with
  | some sp =>
    show (if sp.materials.any (fun m => m.lot == l) then oldQtyFor oe.materials l else 0)
        + (if sp.materials.any (fun m => m.lot == l) then 0 else matQty oe.materials l)
      = matQty oe.materials l
    cases hsp : sp.materials.any (fun m => m.lot == l) with
    | true =>
      rw [if_pos rfl, if_pos rfl, hoe]
      simp
    | false =>
      rw [if_neg Bool.false_ne_true, if_neg Bool.false_ne_true]
      simp
  | none =>
    show (0 : Int) + matQty oe.materials l = matQty oe.materials l
    simp

theorem hit_plus_rec (new_serials : List SerialBinding) (l : String)
    (hnew : (new_serials.map (fun b => b.serial)).Nodup) :
    ∀ (old_serials : List SerialBinding),
    ((old_serials.map (fun b => b.serial)).Nodup) →
    (∀ b ∈ old_serials, (b.materials.map Material.lot).Nodup) →
    (new_serials.map (fun ns => hitTerm old_serials ns l)).sum
        + recSum old_serials new_serials l
      = sumQty old_serials l := by
  intro old_serials
  induction old_serials with
  | nil =>
    intro _ _
    have h0 : (new_serials.map (fun ns => hitTerm [] ns l)).sum = 0 := by
      apply List.sum_eq_zero
      intro x hx
      simp only [List.mem_map] at hx
      obtain ⟨ns, _, rfl⟩ := hx
      exact hitTerm_nil ns l
    simp [recSum, sumQty, h0]
  | cons oe rest ih =>
    intro hold hlots
    simp only [List.map_cons, List.nodup_cons] at hold
    have hnotin : ∀ b ∈ rest, b.serial ≠ oe.serial := by
      intro b hb he
      exact hold.1 (he ▸ List.mem_map_of_mem _ hb)
    rw [hitSum_cons new_serials oe rest l hnotin hnew]
    have hrec : recSum (oe :: rest) new_serials l
        = recDelta new_serials oe l + recSum rest new_serials l := by
      simp [recSum]
    rw [hrec, recDelta_eq]
    have hoe : oldQtyFor oe.materials l = matQty oe.materials l :=
      oldQtyFor_eq_matQty oe.materials l (hlots oe (by simp))
    have hrest := ih hold.2 (fun b hb => hlots b (by simp [hb]))
    have hsq : sumQty (oe :: rest) l = matQty oe.materials l + sumQty rest l := by
      simp [sumQty]
    rw [hsq]
    have hcontrib := extra_plus_rec new_serials oe l hoe
    linarith [hrest, hcontrib]

theorem consSum_decomp (old_serials : List SerialBinding) (l : String) :
    ∀ (new_serials : List SerialBinding),
    (∀ b ∈ new_serials, (b.materials.map Material.lot).Nodup) →
    consSum old_serials new_serials l
      = -(sumQty new_serials l)
        + (new_serials.map (fun ns => hitTerm old_serials ns l)).sum := by
  intro new_serials
  induction new_serials with
  | nil =>
    intro _
    simp [consSum, sumQty]
  | cons ns rest ih =>
    intro h
    have hns := consDelta_decomp old_serials ns l (h ns (by simp))
    have hrest := ih (fun b hb => h b (by simp [hb]))
    simp only [consSum, sumQty, List.map_cons, List.sum_cons] at hns hrest ⊢
    rw [hns, hrest]
    simp [sumQty, consSum]
    ring

/-- Under well-formed bindings (unique serials in each list, unique lot
numbers inside each binding), the two passes together move every lot by
exactly old-sum minus new-sum. -/
theorem reconcile_delta_eq (old_serials new_serials : List SerialBinding) (l : String)
    (hnewser : (new_serials.map (fun b => b.serial)).Nodup)
    (holdser : (old_serials.map (fun b => b.serial)).Nodup)
    (hnewlots : ∀ b ∈ new_serials, (b.materials.map Material.lot).Nodup)
    (holdlots : ∀ b ∈ old_serials, (b.materials.map Material.lot).Nodup) :
    consSum old_serials new_serials l + recSum old_serials new_serials l
      = sumQty old_serials l - sumQty new_serials l := by
  rw [consSum_decomp old_serials l new_serials hnewlots]
  have h := hit_plus_rec new_serials l hnewser old_serials holdser holdlots
  linarith [h]

/-! ## Lookup lemmas used by the safety claim -/

theorem findLot_mem (s : List StockItem) (l : String) (m : StockItem)
    (h : findLot s l = some m) : m ∈ s ∧ m.lot_number = l := by
  unfold findLot at h
  have h1 : m ∈ s := List.mem_of_find?_eq_some h
  have h2 := List.find?_some h
  exact ⟨h1, beq_iff_eq.mp h2⟩

theorem findLot_self_of_nodup (s : List StockItem)
    (h : (s.map (fun m => m.lot_number)).Nodup) :
    ∀ x ∈ s, findLot s x.lot_number = some x := by
  induction s with
  | nil => intro x hx; cases hx
  | cons m rest ih =>
    intro x hx
    simp only [List.map_cons, List.nodup_cons] at h
    cases List.mem_cons.mp hx with
    | inl heq =>
      subst heq
      simp [findLot]
    | inr hmem =>
      have hne : (m.lot_number == x.lot_number) = false := by
        apply beq_eq_false_iff_ne.mpr
        intro he
        exact h.1 (he ▸ List.mem_map_of_mem _ hmem)
      have := ih h.2 x hmem
      simp only [findLot] at this ⊢
      simp [hne, this]

/-! ## Claim theorems: reconciliation -/

/-- C2, counterexample to the claim as stated: the two binding lists
satisfy every hypothesis the claim names (each referenced lot exists in the
ledger and lot numbers are unique within each binding), but the old list
carries two bindings with the same serial identifier, and the final
quantity of lot L1 is 7 instead of the claimed 10 - 5 + (2 + 3) = 10. -/
theorem c2_conservation_counterexample :
    (∀ b ∈ ([⟨"S","p",[⟨"m","L1",2⟩]⟩, ⟨"S","p",[⟨"m","L1",3⟩]⟩,
        ⟨"S","p",[⟨"m","L1",5⟩]⟩] : List SerialBinding),
      ∀ m ∈ b.materials,
        m.lot ∈ ([⟨"mat","c","L1","d",10⟩] : List StockItem).map (fun x => x.lot_number))
    ∧ (∀ b ∈ ([⟨"S","p",[⟨"m","L1",2⟩]⟩, ⟨"S","p",[⟨"m","L1",3⟩]⟩,
        ⟨"S","p",[⟨"m","L1",5⟩]⟩] : List SerialBinding),
      (b.materials.map Material.lot).Nodup)
    ∧ findLot (reconcile
          [⟨"S","p",[⟨"m","L1",2⟩]⟩, ⟨"S","p",[⟨"m","L1",3⟩]⟩]
          [⟨"S","p",[⟨"m","L1",5⟩]⟩]
          [⟨"mat","c","L1","d",10⟩]) "L1"
        ≠ (findLot [⟨"mat","c","L1","d",10⟩] "L1").map
            (addQ (sumQty [⟨"S","p",[⟨"m","L1",2⟩]⟩, ⟨"S","p",[⟨"m","L1",3⟩]⟩] "L1"
              - sumQty [⟨"S","p",[⟨"m","L1",5⟩]⟩] "L1")) := by
  refine ⟨by decide, by decide, by decide⟩

/-- C2 (amended with serial uniqueness): for binding lists in which every
referenced lot exists in the ledger, lot numbers are unique within each
binding, and serial identifiers are unique within each list, after
reconciliation every lot's ledger entry carries its prior quantity minus
that lot's total over the new bindings plus its total over the old
bindings. -/
theorem c2_reconcile_conservation
    (old_serials new_serials : List SerialBinding) (stock : List StockItem)
    (_hex : ∀ b ∈ old_serials ++ new_serials, ∀ m ∈ b.materials,
      m.lot ∈ stock.map (fun x => x.lot_number))
    (hnewser : (new_serials.map (fun b => b.serial)).Nodup)
    (holdser : (old_serials.map (fun b => b.serial)).Nodup)
    (hnewlots : ∀ b ∈ new_serials, (b.materials.map Material.lot).Nodup)
    (holdlots : ∀ b ∈ old_serials, (b.materials.map Material.lot).Nodup) :
    ∀ l : String,
    findLot (reconcile old_serials new_serials stock) l
      = (findLot stock l).map
          (addQ (sumQty old_serials l - sumQty new_serials l)) := by
  intro l
  rw [findLot_reconcile,
    reconcile_delta_eq old_serials new_serials l hnewser holdser hnewlots holdlots]

/-- C2 witness: a serial whose lot L1 use grows from 2 to 5 moves the
ledger from 10 to 10 - 5 + 2 = 7. -/
theorem c2_reconcile_conservation_witness :
    findLot (reconcile [⟨"X-001","p",[⟨"m","L1",2⟩]⟩]
        [⟨"X-001","p",[⟨"m","L1",5⟩]⟩] [⟨"mat","c","L1","d",10⟩]) "L1"
      = (findLot [⟨"mat","c","L1","d",10⟩] "L1").map
          (addQ (sumQty [⟨"X-001","p",[⟨"m","L1",2⟩]⟩] "L1"
            - sumQty [⟨"X-001","p",[⟨"m","L1",5⟩]⟩] "L1")) :=
  c2_reconcile_conservation [⟨"X-001","p",[⟨"m","L1",2⟩]⟩]
    [⟨"X-001","p",[⟨"m","L1",5⟩]⟩] [⟨"mat","c","L1","d",10⟩]
    (by decide) (by decide) (by decide) (by decide) (by decide) "L1"

/-- C3, counterexample to the claim as stated: one binding records lot L1
twice (quantities 2 and 3); reconciling the list against itself moves the
ledger from 10 to 9, because the consumption pass looks the old quantity
up by first match (2) while iterating over both pairs. -/
theorem c3_idempotence_counterexample :
    findLot (reconcile [⟨"S","p",[⟨"m","L1",2⟩, ⟨"m","L1",3⟩]⟩]
        [⟨"S","p",[⟨"m","L1",2⟩, ⟨"m","L1",3⟩]⟩] [⟨"mat","c","L1","d",10⟩]) "L1"
      = some ⟨"mat","c","L1","d",9⟩
    ∧ findLot [⟨"mat","c","L1","d",10⟩] "L1" = some ⟨"mat","c","L1","d",10⟩ := by
  refine ⟨by decide, by decide⟩

/-- C3 (amended): when serial identifiers are unique in the list and lot
numbers are unique within each binding, reconciling identical old and new
binding lists leaves every lot's ledger entry unchanged. -/
theorem c3_reconcile_idempotent (old_serials : List SerialBinding)
    (stock : List StockItem)
    (hser : (old_serials.map (fun b => b.serial)).Nodup)
    (hlots : ∀ b ∈ old_serials, (b.materials.map Material.lot).Nodup) :
    ∀ l : String,
    findLot (reconcile old_serials old_serials stock) l = findLot stock l := by
  intro l
  rw [findLot_reconcile,
    reconcile_delta_eq old_serials old_serials l hser hser hlots hlots]
  simp [map_addQ_zero]

/-- C3 witness: reconciling a well-formed list against itself leaves lot
L1 at 10. -/
theorem c3_reconcile_idempotent_witness :
    findLot (reconcile [⟨"X-001","p",[⟨"m","L1",2⟩]⟩]
        [⟨"X-001","p",[⟨"m","L1",2⟩]⟩] [⟨"mat","c","L1","d",10⟩]) "L1"
      = findLot [⟨"mat","c","L1","d",10⟩] "L1" :=
  c3_reconcile_idempotent [⟨"X-001","p",[⟨"m","L1",2⟩]⟩]
    [⟨"mat","c","L1","d",10⟩] (by decide) (by decide) "L1"

/-- C1, counterexample to the claim as stated: all ledger quantities are
non-negative, yet consuming 15 of lot L1 that only holds 10 drives the
ledger to -5; the code has no floor check. -/
theorem c1_no_negative_counterexample :
    (∀ x ∈ ([⟨"mat","c","L1","d",10⟩] : List StockItem), 0 ≤ x.quantity)
    ∧ ∃ y ∈ reconcile [] [⟨"S","p",[⟨"m","L1",15⟩]⟩]
        [⟨"mat","c","L1","d",10⟩], y.quantity < 0 := by
  refine ⟨by decide, by decide⟩

/-- C1 (amended): quantities stay non-negative provided, for every ledger
row, the lot's total over the new bindings does not exceed the available
quantity plus the lot's total over the old bindings, with well-formed
bindings (unique serials per list, unique lots per binding) and unique lot
numbers in the ledger. -/
theorem c1_no_negative (old_serials new_serials : List SerialBinding)
    (stock : List StockItem)
    (hstock : (stock.map (fun m => m.lot_number)).Nodup)
    (hpos : ∀ x ∈ stock, 0 ≤ x.quantity)
    (hnewser : (new_serials.map (fun b => b.serial)).Nodup)
    (holdser : (old_serials.map (fun b => b.serial)).Nodup)
    (hnewlots : ∀ b ∈ new_serials, (b.materials.map Material.lot).Nodup)
    (holdlots : ∀ b ∈ old_serials, (b.materials.map Material.lot).Nodup)
    (hbound : ∀ x ∈ stock,
      sumQty new_serials x.lot_number ≤ x.quantity + sumQty old_serials x.lot_number) :
    ∀ y ∈ reconcile old_serials new_serials stock, 0 ≤ y.quantity := by
  intro y hy
  have hnodup' : ((reconcile old_serials new_serials stock).map
      (fun m => m.lot_number)).Nodup := by
    rw [reconcile_map_lot]
    exact hstock
  have hself := findLot_self_of_nodup _ hnodup' y hy
  rw [findLot_reconcile,
    reconcile_delta_eq old_serials new_serials y.lot_number
      hnewser holdser hnewlots holdlots] at hself
  cases hfound : findLot stock y.lot_number with
  | none => rw [hfound] at hself; cases hself
  | some x =>
    rw [hfound] at hself
    have hyx : addQ (sumQty old_serials y.lot_number - sumQty new_serials y.lot_number) x
        = y := by
      simpa using hself
    have hxmem := (findLot_mem stock y.lot_number x hfound).1
    have hxlot := (findLot_mem stock y.lot_number x hfound).2
    have hq : y.quantity
        = x.quantity + (sumQty old_serials y.lot_number - sumQty new_serials y.lot_number) := by
      have hc := congrArg StockItem.quantity hyx
      simp only [addQ] at hc
      linarith [hc]
    have hb := hbound x hxmem
    rw [hxlot] at hb
    have hp := hpos x hxmem
    rw [hq]
    linarith

/-- C1 witness: consuming 5 of a lot holding 10 leaves the single ledger
row at 5, which is non-negative. -/
theorem c1_no_negative_witness :
    (⟨"mat", "c", "L1", "d", 5⟩ : StockItem)
        ∈ reconcile [] [⟨"S","p",[⟨"m","L1",5⟩]⟩] [⟨"mat","c","L1","d",10⟩]
    ∧ 0 ≤ (⟨"mat", "c", "L1", "d", 5⟩ : StockItem).quantity :=
  ⟨by decide,
    c1_no_negative [] [⟨"S","p",[⟨"m","L1",5⟩]⟩] [⟨"mat","c","L1","d",10⟩]
      (by decide) (by decide) (by decide) (by decide) (by decide) (by decide) (by decide)
      ⟨"mat", "c", "L1", "d", 5⟩ (by decide)⟩

/-- C4: an old binding whose serial identifier does not occur in the new
binding list has each of its lots recredited by the full recorded
quantity when the recredit pass processes it (`devis.py` lines 733-738),
for every lot present in the ledger. -/
theorem c4_removed_serial_recredit (new_serials : List SerialBinding)
    (st : List StockItem) (oe : SerialBinding)
    (hnot : ∀ ns ∈ new_serials, ns.serial ≠ oe.serial) :
    ∀ l : String,
    findLot (recreditOld new_serials st oe) l
      = (findLot st l).map (addQ (matQty oe.materials l)) := by
  intro l
  have hfind : new_serials.find? (fun ns => ns.serial == oe.serial) = none := by
    apply List.find?_eq_none.mpr
    intro b hb
    simp only [beq_iff_eq]
    exact hnot b hb
  rw [recreditOld_eq_foldl_none new_serials st oe hfind,
    findLot_foldl_stepAdjust, stepDelta_true_qty]

/-- C4 witness: dropping serial X-002 which held 3 of lot L2 raises the
L2 ledger row from 5 to exactly 8. -/
theorem c4_removed_serial_recredit_witness :
    findLot (recreditOld [] [⟨"mat","c","L2","d",5⟩] ⟨"X-002","p",[⟨"m","L2",3⟩]⟩) "L2"
      = some ⟨"mat","c","L2","d",8⟩ := by
  rw [c4_removed_serial_recredit [] [⟨"mat","c","L2","d",5⟩]
    ⟨"X-002","p",[⟨"m","L2",3⟩]⟩ (by decide) "L2"]
  decide

/-! ## Unknown lots are skipped (C10 machinery) -/

/-- The materials of a binding whose lot number occurs in the ledger. -/
def knownMats (stock : List StockItem) (mats : List Material) : List Material :=
  mats.filter (fun m => (findLot stock m.lot).isSome)

/-- A binding list restricted to the pairs whose lot the ledger knows. -/
def knownBindings (stock : List StockItem) (bs : List SerialBinding) : List SerialBinding :=
  bs.map (fun b => ⟨b.serial, b.product, knownMats stock b.materials⟩)

theorem beq_false_of_unknown (stock : List StockItem) (l l' : String)
    (hl : (findLot stock l).isSome = true) (hm : (findLot stock l').isSome = false) :
    (l' == l) = false := by
  apply beq_eq_false_iff_ne.mpr
  intro he
  rw [he, hl] at hm
  cases hm

theorem knownMats_cons_true (stock : List StockItem) (m : Material)
    (rest : List Material) (hm : (findLot stock m.lot).isSome = true) :
    knownMats stock (m :: rest) = m :: knownMats stock rest := by
  simp [knownMats, List.filter_cons, hm]

theorem knownMats_cons_false (stock : List StockItem) (m : Material)
    (rest : List Material) (hm : (findLot stock m.lot).isSome = false) :
    knownMats stock (m :: rest) = knownMats stock rest := by
  simp [knownMats, List.filter_cons, hm]

theorem any_knownMats (stock : List StockItem) (mats : List Material) (l : String)
    (hl : (findLot stock l).isSome = true) :
    ((knownMats stock mats).any (fun m => m.lot == l)) = (mats.any (fun m => m.lot == l)) := by
  induction mats with
  | nil => rfl
  | cons m rest ih =>
    cases hm : ((findLot stock m.lot).isSome) with
    | true =>
      rw [knownMats_cons_true stock m rest hm, List.any_cons, List.any_cons, ih]
    | false =>
      have hne := beq_false_of_unknown stock l m.lot hl hm
      rw [knownMats_cons_false stock m rest hm, ih, List.any_cons, hne]
      simp

theorem matQty_knownMats (stock : List StockItem) (mats : List Material) (l : String)
    (hl : (findLot stock l).isSome = true) :
    matQty (knownMats stock mats) l = matQty mats l := by
  induction mats with
  | nil => rfl
  | cons m rest ih =>
    cases hm : ((findLot stock m.lot).isSome) with
    | true =>
      rw [knownMats_cons_true stock m rest hm, matQty_cons, matQty_cons, ih]
    | false =>
      have hne := beq_false_of_unknown stock l m.lot hl hm
      rw [knownMats_cons_false stock m rest hm, ih, matQty_cons, hne]
      simp

theorem oldQtyFor_knownMats (stock : List StockItem) (mats : List Material) (l : String)
    (hl : (findLot stock l).isSome = true) :
    oldQtyFor (knownMats stock mats) l = oldQtyFor mats l := by
  induction mats with
  | nil => rfl
  | cons m rest ih =>
    cases hm : ((findLot stock m.lot).isSome) with
    | true =>
      rw [knownMats_cons_true stock m rest hm]
      cases hml : (m.lot == l) with
      | true => simp [oldQtyFor, hml]
      | false =>
        simp only [oldQtyFor] at ih ⊢
        simp [hml, ih]
    | false =>
      have hne := beq_false_of_unknown stock l m.lot hl hm
      rw [knownMats_cons_false stock m rest hm]
      simp only [oldQtyFor] at ih ⊢
      simp [hne, ih]

theorem find?_knownBindings (stock : List StockItem) (bs : List SerialBinding) (x : String) :
    (knownBindings stock bs).find? (fun b => b.serial == x)
      = (bs.find? (fun b => b.serial == x)).map
          (fun b => ⟨b.serial, b.product, knownMats stock b.materials⟩) := by
  induction bs with
  | nil => rfl
  | cons b rest ih =>
    cases hb : (b.serial == x) with
    | true =>
      simp only [knownBindings, List.map_cons]
      rw [List.find?_cons_of_pos, List.find?_cons_of_pos]
      · rfl
      · exact hb
      · exact hb
    | false =>
      simp only [knownBindings, List.map_cons]
      rw [List.find?_cons_of_neg, List.find?_cons_of_neg]
      · exact ih
      · simp [hb]
      · simp [hb]

theorem useQty_known (stock : List StockItem) (old_serials : List SerialBinding)
    (x l : String) (hl : (findLot stock l).isSome = true) :
    useQty ((knownBindings stock old_serials).find? (fun b => b.serial == x)) l
      = useQty (old_serials.find? (fun b => b.serial == x)) l := by
  rw [find?_knownBindings]
  cases hf : old_serials.find? (fun b => b.serial == x) with
  | none => rfl
  | some b =>
    show useQty (some ⟨b.serial, b.product, knownMats stock b.materials⟩) l
      = useQty (some b) l
    simp only [useQty]
    exact oldQtyFor_knownMats stock b.materials l hl

theorem stepDelta_knownMats (stock : List StockItem) (oe1 oe2 : Option SerialBinding)
    (l : String) (hl : (findLot stock l).isSome = true)
    (huse : useQty oe1 l = useQty oe2 l) :
    ∀ mats : List Material,
    stepDelta Material.lot (fun mat => -(mat.qty - useQty oe1 mat.lot)) (fun _ => true) l
        (knownMats stock mats)
      = stepDelta Material.lot (fun mat => -(mat.qty - useQty oe2 mat.lot)) (fun _ => true) l
          mats := by
  intro mats
  induction mats with
  | nil => rfl
  | cons m rest ih =>
    cases hm : (findLot stock m.lot).isSome with
    | true =>
      rw [knownMats_cons_true stock m rest hm, stepDelta_cons, stepDelta_cons, ih]
      congr 1
      cases hml : (m.lot == l) with
      | true =>
        have hmeq : m.lot = l := beq_iff_eq.mp hml
        simp [hml, hmeq, huse]
      | false => simp [hml]
    | false =>
      have hne := beq_false_of_unknown stock l m.lot hl hm
      rw [knownMats_cons_false stock m rest hm, ih, stepDelta_cons, hne]
      simp

theorem consDelta_known (stock : List StockItem) (old_serials : List SerialBinding)
    (ns : SerialBinding) (l : String) (hl : (findLot stock l).isSome = true) :
    consDelta (knownBindings stock old_serials)
        ⟨ns.serial, ns.product, knownMats stock ns.materials⟩ l
      = consDelta old_serials ns l := by
  unfold consDelta
  exact stepDelta_knownMats stock _ _ l hl
    (useQty_known stock old_serials ns.serial l hl) ns.materials

theorem stepDelta_rec_knownMats (stock : List StockItem) (sp : SerialBinding) (l : String)
    (hl : (findLot stock l).isSome = true) :
    ∀ mats : List Material,
    stepDelta Material.lot Material.qty
        (fun om => !((knownMats stock sp.materials).any (fun m => m.lot == om.lot))) l
        (knownMats stock mats)
      = stepDelta Material.lot Material.qty
          (fun om => !(sp.materials.any (fun m => m.lot == om.lot))) l mats := by
  intro mats
  induction mats with
  | nil => rfl
  | cons m rest ih =>
    cases hm : (findLot stock m.lot).isSome with
    | true =>
      rw [knownMats_cons_true stock m rest hm, stepDelta_cons, stepDelta_cons, ih]
      congr 1
      cases hml : (m.lot == l) with
      | true =>
        have hmeq : m.lot = l := beq_iff_eq.mp hml
        simp [hml, hmeq, any_knownMats stock sp.materials l hl]
      | false => simp [hml]
    | false =>
      have hne := beq_false_of_unknown stock l m.lot hl hm
      rw [knownMats_cons_false stock m rest hm, ih, stepDelta_cons, hne]
      simp

theorem recDelta_known (stock : List StockItem) (new_serials : List SerialBinding)
    (oe : SerialBinding) (l : String) (hl : (findLot stock l).isSome = true) :
    recDelta (knownBindings stock new_serials)
        ⟨oe.serial, oe.product, knownMats stock oe.materials⟩ l
      = recDelta new_serials oe l := by
  cases hf : new_serials.find? (fun ns => ns.serial == oe.serial) with
  | none =>
    have hf1 : (knownBindings stock new_serials).find?
        (fun ns => ns.serial == oe.serial) = none := by
      rw [find?_knownBindings, hf]; rfl
    have e1 : recDelta (knownBindings stock new_serials)
        ⟨oe.serial, oe.product, knownMats stock oe.materials⟩ l
      = stepDelta Material.lot Material.qty (fun _ => true) l
          (knownMats stock oe.materials) :=
      recDelta_none (knownBindings stock new_serials)
        ⟨oe.serial, oe.product, knownMats stock oe.materials⟩ l hf1
    rw [e1, recDelta_none _ _ _ hf, stepDelta_true_qty, stepDelta_true_qty]
    exact matQty_knownMats stock oe.materials l hl
  | some sp =>
    have hf1 : (knownBindings stock new_serials).find? (fun ns => ns.serial == oe.serial)
        = some ⟨sp.serial, sp.product, knownMats stock sp.materials⟩ := by
      rw [find?_knownBindings, hf]; rfl
    have e1 : recDelta (knownBindings stock new_serials)
        ⟨oe.serial, oe.product, knownMats stock oe.materials⟩ l
      = stepDelta Material.lot Material.qty
          (fun om => !((knownMats stock sp.materials).any (fun m => m.lot == om.lot))) l
          (knownMats stock oe.materials) :=
      recDelta_some (knownBindings stock new_serials)
        ⟨oe.serial, oe.product, knownMats stock oe.materials⟩
        ⟨sp.serial, sp.product, knownMats stock sp.materials⟩ l hf1
    rw [e1, recDelta_some _ _ _ _ hf]
    exact stepDelta_rec_knownMats stock sp l hl oe.materials

theorem consSum_known (stock : List StockItem)
    (old_serials new_serials : List SerialBinding) (l : String)
    (hl : (findLot stock l).isSome = true) :
    consSum (knownBindings stock old_serials) (knownBindings stock new_serials) l
      = consSum old_serials new_serials l := by
  unfold consSum
  have hkb : knownBindings stock new_serials
      = new_serials.map
          (fun b => (⟨b.serial, b.product, knownMats stock b.materials⟩ : SerialBinding)) := rfl
  rw [hkb, List.map_map]
  apply congrArg List.sum
  apply List.map_congr_left
  intro ns _
  exact consDelta_known stock old_serials ns l hl

theorem recSum_known (stock : List StockItem)
    (old_serials new_serials : List SerialBinding) (l : String)
    (hl : (findLot stock l).isSome = true) :
    recSum (knownBindings stock old_serials) (knownBindings stock new_serials) l
      = recSum old_serials new_serials l := by
  unfold recSum
  have hkb : knownBindings stock old_serials
      = old_serials.map
          (fun b => (⟨b.serial, b.product, knownMats stock b.materials⟩ : SerialBinding)) := rfl
  rw [hkb, List.map_map]
  apply congrArg List.sum
  apply List.map_congr_left
  intro oe _
  exact recDelta_known stock new_serials oe l hl

/-- C10: a `{lot, qty}` pair whose lot number matches no ledger row is
silently skipped by both passes: reconciliation never creates or removes a
ledger row (the lot-number column is unchanged), an unknown lot still has
no row afterwards, and dropping every unknown-lot pair from both binding
lists yields the same ledger lookups - the credit or debit for such a pair
is silently lost. -/
theorem c10_unknown_lots_skipped (old_serials new_serials : List SerialBinding)
    (stock : List StockItem) :
    ((reconcile old_serials new_serials stock).map (fun m => m.lot_number)
        = stock.map (fun m => m.lot_number))
    ∧ (∀ l : String, findLot stock l = none →
        findLot (reconcile old_serials new_serials stock) l = none)
    ∧ (∀ l : String,
        findLot (reconcile old_serials new_serials stock) l
          = findLot (reconcile (knownBindings stock old_serials)
              (knownBindings stock new_serials) stock) l) := by
  refine ⟨reconcile_map_lot old_serials new_serials stock, ?_, ?_⟩
  · intro l h
    rw [findLot_reconcile, h]
    rfl
  · intro l
    rw [findLot_reconcile, findLot_reconcile]
    cases hfound : findLot stock l with
    | none => rfl
    | some m =>
      have hl : (findLot stock l).isSome = true := by rw [hfound]; rfl
      rw [consSum_known stock old_serials new_serials l hl,
        recSum_known stock old_serials new_serials l hl]

/-- C10 witness: an old binding consuming 4 of unknown lot LX leaves the
one-row ledger (lot L1) without an LX row, and the reconciliation result
agrees with the one computed after dropping the unknown pair. -/
theorem c10_unknown_lots_skipped_witness :
    findLot (reconcile [⟨"S","p",[⟨"m","LX",4⟩]⟩] [] [⟨"mat","c","L1","d",10⟩]) "LX" = none
    ∧ findLot (reconcile [⟨"S","p",[⟨"m","LX",4⟩]⟩] [] [⟨"mat","c","L1","d",10⟩]) "L1"
        = findLot (reconcile
            (knownBindings [⟨"mat","c","L1","d",10⟩] [⟨"S","p",[⟨"m","LX",4⟩]⟩])
            (knownBindings [⟨"mat","c","L1","d",10⟩] [])
            [⟨"mat","c","L1","d",10⟩]) "L1" :=
  ⟨(c10_unknown_lots_skipped [⟨"S","p",[⟨"m","LX",4⟩]⟩] []
      [⟨"mat","c","L1","d",10⟩]).2.1 "LX" (by decide),
   (c10_unknown_lots_skipped [⟨"S","p",[⟨"m","LX",4⟩]⟩] []
      [⟨"mat","c","L1","d",10⟩]).2.2 "L1"⟩

/-! ## Pricing engine (`build_pdf` lines 335-363, tab-1 lines 512-514) -/

/-- Quote-path subtotal: the running sum
`subtotal += it.unit_price * it.quantity` over the items (`build_pdf`
lines 354-359; the identical expression appears in tab 1, line 512). -/
def subtotal_quote (items : List Item) : ℚ :=
  items.foldl (fun acc it => acc + it.unit_price * (it.quantity : ℚ)) 0

/-- Price looked up for one serial row:
`next((it.unit_price for it in items if it.description == s["product"]), 0.0)`
(`build_pdf` line 338). -/
def priceOf (items : List Item) (product : String) : ℚ :=
  match items.find? (fun it => it.description == product) with
  | some it => it.unit_price
  | none => 0

/-- Invoice-with-serials subtotal: one line per serial, each adding the
first matching item's unit price (`build_pdf` lines 335-345). -/
def subtotal_serials (items : List Item) (serials : List SerialBinding) : ℚ :=
  serials.foldl (fun acc srl => acc + priceOf items srl.product) 0

/-- Discount: `subtotal * (discount_value / 100.0)` when the discount is a
percentage, else `min(discount_value, subtotal)` (`build_pdf` line 361,
tab 1 line 513). -/
def discount_amount (subtotal discount_value : ℚ) (discount_is_percent : Bool) : ℚ :=
  if discount_is_percent then subtotal * (discount_value / 100)
  else min discount_value subtotal

/-- `vat_amount = 0.0` (`build_pdf` line 362). -/
def vat_amount : ℚ := 0

/-- `total = subtotal - discount_amount + vat_amount` (`build_pdf`
line 363; tab 1 omits the zero VAT term, line 514). -/
def total_amount (subtotal discount_value : ℚ) (discount_is_percent : Bool) : ℚ :=
  subtotal - discount_amount subtotal discount_value discount_is_percent + vat_amount

theorem foldl_add_eq_sum (f : α → ℚ) (xs : List α) :
    ∀ a : ℚ, xs.foldl (fun acc x => acc + f x) a = a + (xs.map f).sum := by
  induction xs with
  | nil => intro a; simp
  | cons x xs ih => intro a; simp [ih]; ring

theorem subtotal_quote_eq_sum (items : List Item) :
    subtotal_quote items
      = (items.map (fun it => it.unit_price * (it.quantity : ℚ))).sum := by
  have h := foldl_add_eq_sum (fun it => it.unit_price * (it.quantity : ℚ)) items 0
  rw [zero_add] at h
  exact h

theorem subtotal_serials_eq_sum (items : List Item) (serials : List SerialBinding) :
    subtotal_serials items serials
      = (serials.map (fun srl => priceOf items srl.product)).sum := by
  have h := foldl_add_eq_sum (fun srl => priceOf items srl.product) serials 0
  rw [zero_add] at h
  exact h

/-! ## Serial allocation (`generate_serial` line 234-235, tab-5 loop
lines 651-656) -/

/-- Zero-pad a decimal numeral to at least three digits, as Python's
format specifier `03d` does for non-negative numbers. -/
def pad3 (n : Nat) : String :=
  let numeral := toString n
  if numeral.length < 3 then
    String.mk (List.replicate (3 - numeral.length) '0') ++ numeral
  else numeral

/-- Mirrors `generate_serial(quote_no, idx)` returning
`f"{quote_no}-{idx:03d}"` (`devis.py` lines 234-235 and 646-647). -/
def generate_serial (quote_no : String) (idx : Nat) : String :=
  quote_no ++ "-" ++ pad3 idx

/-- The tab-5 enumeration loop (`devis.py` lines 651-656): the counter
starts at `counter` and, for each line item in listed order, each of its
`quantity` units receives the next serial, paired with the item's
description.  Python's `range` over a negative quantity is empty, hence
`Int.toNat`. -/
def enumSerialsFrom (quote_no : String) (counter : Nat) : List Item → List (String × String)
  | [] => []
  | it :: rest =>
      ((List.range it.quantity.toNat).map
        (fun q => (generate_serial quote_no (counter + q), it.description)))
        ++ enumSerialsFrom quote_no (counter + it.quantity.toNat) rest

/-- The serial list the tab-5 loop produces: counter starts at 1
(`serial_counter = 1`, line 651). -/
def enumerateSerials (quote_no : String) (items : List Item) : List (String × String) :=
  enumSerialsFrom quote_no 1 items

/-- Number of physical units of an invoice (each item contributes
`quantity` units). -/
def totalUnits (items : List Item) : Nat :=
  (items.map (fun it => it.quantity.toNat)).sum

theorem enumSerialsFrom_fst (quote_no : String) :
    ∀ (items : List Item) (c : Nat),
    (enumSerialsFrom quote_no c items).map Prod.fst
      = (List.range (totalUnits items)).map (fun k => generate_serial quote_no (c + k)) := by
  intro items
  induction items with
  | nil => intro c; simp [enumSerialsFrom, totalUnits]
  | cons it rest ih =>
    intro c
    simp only [enumSerialsFrom, List.map_append, List.map_map]
    rw [ih (c + it.quantity.toNat)]
    have htot : totalUnits (it :: rest) = it.quantity.toNat + totalUnits rest := by
      simp [totalUnits]
    rw [htot, List.range_add, List.map_append, List.map_map]
    congr 1
    apply List.map_congr_left
    intro k _
    show generate_serial quote_no (c + it.quantity.toNat + k)
      = generate_serial quote_no (c + (it.quantity.toNat + k))
    rw [Nat.add_assoc]

/-- C9: the k-th unit overall (1-indexed, items in listed order, each item
contributing `quantity` units) receives serial
`quote_no ++ "-" ++ (zero-padded k)`: position k (0-based) of the
enumerated list carries `generate_serial quote_no (k + 1)`, and the list
has exactly one entry per unit.  The list is recomputed from the items by
`enumerateSerials` alone, so an edit regenerates it from scratch. -/
theorem c9_serial_assignment (quote_no : String) (items : List Item) :
    (enumerateSerials quote_no items).map Prod.fst
      = (List.range (totalUnits items)).map (fun k => generate_serial quote_no (k + 1)) := by
  unfold enumerateSerials
  rw [enumSerialsFrom_fst quote_no items 1]
  apply List.map_congr_left
  intro k _
  rw [Nat.add_comm]

/-! ## Claim theorems: pricing -/

/-- C5, counterexample to the claim as stated: a non-negative percent
discount of 150 on a subtotal of 100 yields a discount amount of 150,
which exceeds the subtotal, and a negative total of -50; the code only
caps the absolute branch. -/
theorem c5_discount_counterexample :
    subtotal_quote [⟨"A", 100, 1⟩] = 100
    ∧ discount_amount (subtotal_quote [⟨"A", 100, 1⟩]) 150 true = 150
    ∧ ¬(discount_amount (subtotal_quote [⟨"A", 100, 1⟩]) 150 true
        ≤ subtotal_quote [⟨"A", 100, 1⟩])
    ∧ total_amount (subtotal_quote [⟨"A", 100, 1⟩]) 150 true < 0 := by
  refine ⟨?_, ?_, ?_, ?_⟩ <;>
    norm_num [subtotal_quote, discount_amount, total_amount, vat_amount]

/-- C5 (amended): for non-negative prices, quantities and discount value,
the discount amount follows the two stated formulas; it is non-negative,
never exceeds the subtotal, and the total is non-negative, provided the
discount value does not exceed 100 when it is a percentage. -/
theorem c5_discount_caps (items : List Item) (dv : ℚ) (isPercent : Bool)
    (hitems : ∀ it ∈ items, 0 ≤ it.unit_price ∧ 0 ≤ it.quantity)
    (hdv : 0 ≤ dv)
    (hcap : isPercent = true → dv ≤ 100) :
    (isPercent = true →
      discount_amount (subtotal_quote items) dv isPercent
        = subtotal_quote items * (dv / 100))
    ∧ (isPercent = false →
      discount_amount (subtotal_quote items) dv isPercent
        = min dv (subtotal_quote items))
    ∧ 0 ≤ discount_amount (subtotal_quote items) dv isPercent
    ∧ discount_amount (subtotal_quote items) dv isPercent ≤ subtotal_quote items
    ∧ 0 ≤ total_amount (subtotal_quote items) dv isPercent := by
  have hsub : 0 ≤ subtotal_quote items := by
    rw [subtotal_quote_eq_sum]
    apply List.sum_nonneg
    intro x hx
    simp only [List.mem_map] at hx
    obtain ⟨it, hit, rfl⟩ := hx
    have h := hitems it hit
    have hq : (0 : ℚ) ≤ (it.quantity : ℚ) := by
      exact_mod_cast h.2
    exact mul_nonneg h.1 hq
  cases isPercent with
  | true =>
    have hform : discount_amount (subtotal_quote items) dv true
        = subtotal_quote items * (dv / 100) := by
      simp [discount_amount]
    have hnonneg : 0 ≤ subtotal_quote items * (dv / 100) :=
      mul_nonneg hsub (by positivity)
    have hle : subtotal_quote items * (dv / 100) ≤ subtotal_quote items := by
      apply mul_le_of_le_one_right hsub
      rw [div_le_one (by norm_num : (0:ℚ) < 100)]
      exact hcap rfl
    refine ⟨fun _ => hform, ?_, ?_, ?_, ?_⟩
    · intro hfalse
      exact absurd hfalse (by simp)
    · rw [hform]; exact hnonneg
    · rw [hform]; exact hle
    · show 0 ≤ subtotal_quote items - discount_amount (subtotal_quote items) dv true + vat_amount
      rw [hform]
      simp only [vat_amount, add_zero]
      linarith
  | false =>
    have hform : discount_amount (subtotal_quote items) dv false
        = min dv (subtotal_quote items) := by
      simp [discount_amount]
    refine ⟨?_, fun _ => hform, ?_, ?_, ?_⟩
    · intro htrue
      exact absurd htrue (by simp)
    · rw [hform]; exact le_min hdv hsub
    · rw [hform]; exact min_le_right _ _
    · show 0 ≤ subtotal_quote items - discount_amount (subtotal_quote items) dv false + vat_amount
      rw [hform]
      simp only [vat_amount, add_zero]
      have := min_le_right dv (subtotal_quote items)
      linarith

/-- C5 witness: subtotal 100, percent discount 10: the discount amount is
non-negative, capped by the subtotal, and the total is non-negative. -/
theorem c5_discount_caps_witness :
    0 ≤ discount_amount (subtotal_quote [⟨"A", 100, 1⟩]) 10 true
    ∧ discount_amount (subtotal_quote [⟨"A", 100, 1⟩]) 10 true
        ≤ subtotal_quote [⟨"A", 100, 1⟩]
    ∧ 0 ≤ total_amount (subtotal_quote [⟨"A", 100, 1⟩]) 10 true := by
  have h := c5_discount_caps [⟨"A", 100, 1⟩] 10 true
    (by intro it hit; simp only [List.mem_singleton] at hit; subst hit; norm_num)
    (by norm_num) (fun _ => by norm_num)
  exact ⟨h.2.2.1, h.2.2.2.1, h.2.2.2.2⟩

theorem map_snd_const_sum (f : String → ℚ) (g : Nat → String) (d : String) (n : Nat) :
    ((((List.range n).map (fun q => (g q, d))).map Prod.snd).map f).sum = (n : ℚ) * f d := by
  rw [List.map_map, List.map_map]
  rw [show ((f ∘ Prod.snd) ∘ fun q => (g q, d)) = fun _ => f d from rfl]
  rw [List.map_const', List.length_range, List.sum_replicate, nsmul_eq_mul]

theorem enum_snd_sum (quote_no : String) (f : String → ℚ) :
    ∀ (items : List Item) (c : Nat),
    (((enumSerialsFrom quote_no c items).map Prod.snd).map f).sum
      = (items.map (fun it => (it.quantity.toNat : ℚ) * f it.description)).sum := by
  intro items
  induction items with
  | nil => intro c; simp [enumSerialsFrom]
  | cons it rest ih =>
    intro c
    simp only [enumSerialsFrom]
    rw [List.map_append, List.map_append, List.sum_append,
      map_snd_const_sum f (fun q => generate_serial quote_no (c + q)) it.description
        it.quantity.toNat,
      ih (c + it.quantity.toNat), List.map_cons, List.sum_cons]

theorem find_desc_self (items : List Item)
    (h : (items.map (fun it => it.description)).Nodup) :
    ∀ it ∈ items, items.find? (fun x => x.description == it.description) = some it := by
  induction items with
  | nil => intro it hit; cases hit
  | cons a rest ih =>
    intro it hit
    simp only [List.map_cons, List.nodup_cons] at h
    cases List.mem_cons.mp hit with
    | inl heq =>
      subst heq
      simp
    | inr hmem =>
      have hne : (a.description == it.description) = false := by
        apply beq_eq_false_iff_ne.mpr
        intro he
        exact h.1 (he ▸ List.mem_map_of_mem _ hmem)
      have hr := ih h.2 it hmem
      simp [hne, hr]

/-- C6, counterexample to the claim as stated: two line items share the
description "A" (prices 10 and 20, one unit each); the serial list is
exactly the one the tab-5 loop enumerates for those items, yet the
invoice-with-serials subtotal is 20 (the first matching price counted
twice) while the sum of unit_price * quantity is 30. -/
theorem c6_subtotal_counterexample :
    (([⟨"F-001", "A", []⟩, ⟨"F-002", "A", []⟩] : List SerialBinding).map
        (fun srl => srl.product)
      = (enumerateSerials "F" [⟨"A", 10, 1⟩, ⟨"A", 20, 1⟩]).map Prod.snd)
    ∧ subtotal_serials [⟨"A", 10, 1⟩, ⟨"A", 20, 1⟩]
        [⟨"F-001", "A", []⟩, ⟨"F-002", "A", []⟩] = 20
    ∧ subtotal_quote [⟨"A", 10, 1⟩, ⟨"A", 20, 1⟩] = 30
    ∧ subtotal_serials [⟨"A", 10, 1⟩, ⟨"A", 20, 1⟩]
        [⟨"F-001", "A", []⟩, ⟨"F-002", "A", []⟩]
      ≠ subtotal_quote [⟨"A", 10, 1⟩, ⟨"A", 20, 1⟩] := by
  refine ⟨by decide, ?_, ?_, ?_⟩ <;>
    norm_num [subtotal_serials, subtotal_quote, priceOf]

/-- C6 (amended): for every item list, the quote-path subtotal is the sum
of unit_price * quantity, and it is invariant under permutation of the
items - both unconditionally; the invoice-with-serials path agrees with it
provided quantities are non-negative, the serial list is the one
enumerated from the items, and the item descriptions are pairwise
distinct. -/
theorem c6_subtotal_paths (items items2 : List Item) (quote_no : String)
    (serials : List SerialBinding)
    (hperm : items.Perm items2) :
    subtotal_quote items
        = (items.map (fun it => it.unit_price * (it.quantity : ℚ))).sum
    ∧ subtotal_quote items2 = subtotal_quote items
    ∧ ((∀ it ∈ items, 0 ≤ it.quantity) →
        (items.map (fun it => it.description)).Nodup →
        serials.map (fun srl => srl.product)
            = (enumerateSerials quote_no items).map Prod.snd →
        subtotal_serials items serials = subtotal_quote items) := by
  refine ⟨subtotal_quote_eq_sum items, ?_, ?_⟩
  · rw [subtotal_quote_eq_sum, subtotal_quote_eq_sum]
    exact (hperm.map (fun it => it.unit_price * (it.quantity : ℚ))).sum_eq.symm
  · intro hqty hdesc hser
    rw [subtotal_serials_eq_sum]
    have h1 : serials.map (fun srl => priceOf items srl.product)
        = (serials.map (fun srl => srl.product)).map (priceOf items) := by
      rw [List.map_map]
      rfl
    rw [h1, hser]
    have h2 := enum_snd_sum quote_no (priceOf items) items 1
    unfold enumerateSerials
    rw [h2, subtotal_quote_eq_sum]
    apply congrArg List.sum
    apply List.map_congr_left
    intro it hit
    have hfind := find_desc_self items hdesc it hit
    have hp : priceOf items it.description = it.unit_price := by
      unfold priceOf
      rw [hfind]
    rw [hp]
    have hq : ((it.quantity.toNat : ℚ)) = (it.quantity : ℚ) := by
      exact_mod_cast congrArg (fun z : Int => (z : ℚ)) (Int.toNat_of_nonneg (hqty it hit))
    rw [hq]
    ring

/-- C6 witness: items A (price 10, qty 2) and B (price 5, qty 1), serials
enumerated from them, and the reversed item list: both paths give 25 and
the permuted list agrees. -/
theorem c6_subtotal_paths_witness :
    subtotal_quote [⟨"B", 5, 1⟩, ⟨"A", 10, 2⟩] = subtotal_quote [⟨"A", 10, 2⟩, ⟨"B", 5, 1⟩]
    ∧ subtotal_serials [⟨"A", 10, 2⟩, ⟨"B", 5, 1⟩]
        [⟨"F-001", "A", []⟩, ⟨"F-002", "A", []⟩, ⟨"F-003", "B", []⟩]
      = subtotal_quote [⟨"A", 10, 2⟩, ⟨"B", 5, 1⟩] := by
  have h := c6_subtotal_paths [⟨"A", 10, 2⟩, ⟨"B", 5, 1⟩] [⟨"B", 5, 1⟩, ⟨"A", 10, 2⟩] "F"
    [⟨"F-001", "A", []⟩, ⟨"F-002", "A", []⟩, ⟨"F-003", "B", []⟩]
    (by decide)
  exact ⟨h.2.1, h.2.2 (by decide) (by decide) (by decide)⟩

/-! ## Persisted-record loaders (`devis.py` lines 74-171)

The CSV reader and the JSON parser are external libraries: a loader
receives the decoded rows of its file as `some rows`, or `none` when the
file does not exist (Python's `FileNotFoundError` branch).  Cells the
source converts with `float`/`int` are carried already typed; the
`materials`/`serials` columns are carried as raw optional strings and the
two `json.loads` calls are passed in as functions, `none` standing for a
raised exception (the bare `except` branches at lines 128-137). -/

/-- One row of `catalog.csv` as `load_catalog` reads it (lines 74-83). -/
structure CatalogRow where
  description : String
  unit_price : ℚ
  quantity : Int
deriving Repr, DecidableEq

/-- One row of `clients.csv` as `load_clients` reads it (lines 101-110). -/
structure ClientRow where
  name : String
  address : String
  phone : String
  email : String
  city : String
deriving Repr, DecidableEq

/-- One row of `stock.csv` as `load_stock` reads it (lines 156-171);
`color` is optional, defaulted to the empty string. -/
structure StockRow where
  name : String
  color : Option String
  lot_number : String
  entry_date : String
  quantity : Int
deriving Repr, DecidableEq

/-- One row of `quotes.csv` as `load_quotes` reads it (lines 112-153);
`status`, `materials` and `serials` are optional columns of older files,
`materials`/`serials` raw JSON text. -/
structure QuoteRow where
  number : String
  date : String
  client_name : String
  client_address : String
  client_phone : String
  client_email : String
  client_city : String
  items : List Item
  discount_value : ℚ
  discount_is_percent : String
  place : String
  status : Option String
  materials : Option String
  serials : Option String
deriving Repr, DecidableEq

/-- Mirrors the Python dataclass `Quote` after loading. -/
structure Quote where
  number : String
  date : String
  client : Client
  items : List Item
  discount_value : ℚ
  discount_is_percent : Bool
  place : String
  status : String
  materials : List Material
  serials : List SerialBinding
deriving Repr, DecidableEq

/-- Mirrors `load_catalog` (lines 74-83): missing file yields `[]`. -/
def load_catalog (file : Option (List CatalogRow)) : List Item :=
  match file with
  | none => []
  | some rows => rows.map (fun r => ⟨r.description, r.unit_price, r.quantity⟩)

/-- Mirrors `load_clients` (lines 101-110): missing file yields `[]`. -/
def load_clients (file : Option (List ClientRow)) : List Client :=
  match file with
  | none => []
  | some rows => rows.map (fun r => ⟨r.name, r.address, r.phone, r.email, r.city⟩)

/-- Mirrors `load_stock` (lines 156-171): missing file yields `[]`, a
missing `color` cell defaults to `""`. -/
def load_stock (file : Option (List StockRow)) : List StockItem :=
  match file with
  | none => []
  | some rows =>
    rows.map (fun r => ⟨r.name, r.color.getD "", r.lot_number, r.entry_date, r.quantity⟩)

/-- One quote built from one row (`load_quotes` loop body, lines 117-150):
`materials` and `serials` default the missing column to the text "[]" via
`row.get`, then fall back to `[]` when the parse raises. -/
def quoteOfRow (parse_materials : String → Option (List Material))
    (parse_serials : String → Option (List SerialBinding)) (row : QuoteRow) : Quote :=
  { number := row.number
    date := row.date
    client := ⟨row.client_name, row.client_address, row.client_phone,
      row.client_email, row.client_city⟩
    items := row.items
    discount_value := row.discount_value
    discount_is_percent := row.discount_is_percent == "True"
    place := row.place
    status := row.status.getD "quote"
    materials :=
      match parse_materials (row.materials.getD "[]") with
      | some v => v
      | none => []
    serials :=
      match parse_serials (row.serials.getD "[]") with
      | some v => v
      | none => [] }

/-- Mirrors `load_quotes` (lines 112-153): missing file yields `[]`. -/
def load_quotes (parse_materials : String → Option (List Material))
    (parse_serials : String → Option (List SerialBinding))
    (file : Option (List QuoteRow)) : List Quote :=
  match file with
  | none => []
  | some rows => rows.map (quoteOfRow parse_materials parse_serials)

/-- C7: every persisted-record loader (catalog, clients, quotes/invoices,
stock) returns the empty collection when the backing file does not exist,
for any JSON parsers; none of the `FileNotFoundError` branches raises. -/
theorem c7_missing_file_empty (parse_materials : String → Option (List Material))
    (parse_serials : String → Option (List SerialBinding)) :
    load_catalog none = []
    ∧ load_clients none = []
    ∧ load_quotes parse_materials parse_serials none = []
    ∧ load_stock none = [] :=
  ⟨rfl, rfl, rfl, rfl⟩

/-- C8: a quote row whose `materials` or `serials` column is missing or
holds text its parser rejects still loads (the row yields a quote in the
loaded list), and the affected field defaults to the empty list; the
hypotheses on "[]" record that the real `json.loads` parses the default
text "[]" to the empty list. -/
theorem c8_malformed_json_defaults (parse_materials : String → Option (List Material))
    (parse_serials : String → Option (List SerialBinding))
    (rows : List QuoteRow) (row : QuoteRow)
    (hpm : parse_materials "[]" = some [])
    (hps : parse_serials "[]" = some [])
    (hmem : row ∈ rows) :
    quoteOfRow parse_materials parse_serials row
        ∈ load_quotes parse_materials parse_serials (some rows)
    ∧ (row.materials = none →
        (quoteOfRow parse_materials parse_serials row).materials = [])
    ∧ (∀ txt, row.materials = some txt → parse_materials txt = none →
        (quoteOfRow parse_materials parse_serials row).materials = [])
    ∧ (row.serials = none →
        (quoteOfRow parse_materials parse_serials row).serials = [])
    ∧ (∀ txt, row.serials = some txt → parse_serials txt = none →
        (quoteOfRow parse_materials parse_serials row).serials = []) := by
  refine ⟨List.mem_map_of_mem _ hmem, ?_, ?_, ?_, ?_⟩
  · intro h
    simp [quoteOfRow, h, hpm]
  · intro txt htxt hbad
    simp [quoteOfRow, htxt, hbad]
  · intro h
    simp [quoteOfRow, h, hps]
  · intro txt htxt hbad
    simp [quoteOfRow, htxt, hbad]

/-- C8 witness: a concrete row whose `materials` column holds unparseable
text and whose `serials` column is absent loads with both fields empty. -/
theorem c8_malformed_json_defaults_witness :
    (quoteOfRow (fun txt => if txt == "[]" then some [] else none)
        (fun txt => if txt == "[]" then some [] else none)
        ⟨"20240101-001", "2024-01-01", "n", "a", "p", "e", "c",
          [], 0, "True", "place", some "invoice", some "oops", none⟩).materials = []
    ∧ (quoteOfRow (fun txt => if txt == "[]" then some [] else none)
        (fun txt => if txt == "[]" then some [] else none)
        ⟨"20240101-001", "2024-01-01", "n", "a", "p", "e", "c",
          [], 0, "True", "place", some "invoice", some "oops", none⟩).serials = [] := by
  have h := c8_malformed_json_defaults
    (fun txt => if txt == "[]" then some [] else none)
    (fun txt => if txt == "[]" then some [] else none)
    [⟨"20240101-001", "2024-01-01", "n", "a", "p", "e", "c",
      [], 0, "True", "place", some "invoice", some "oops", none⟩]
    ⟨"20240101-001", "2024-01-01", "n", "a", "p", "e", "c",
      [], 0, "True", "place", some "invoice", some "oops", none⟩
    (by decide) (by decide) (by simp)
  exact ⟨h.2.2.1 "oops" rfl (by decide), h.2.2.2.1 rfl⟩
